import Mathlib

/-!
Verification development for the complaints-pipeline normalization and
poll-and-mark core.  The definitions below are shallow embeddings of the
Python sources `schema.py`, `form_mapping.py`, `msforms_poll.py` and
`sheets.py`; theorems settle the specified properties of those functions.
-/

set_option maxRecDepth 4000

/-- A Python value as it flows through the pipeline: a string, an integer
(standing for the non-string values a spreadsheet cell or JSON payload can
carry), or Python None.  `pyStr` models `str(x)` and `truthy` models
Python truthiness. -/
inductive PyVal where
  | str (s : String)
  | int (n : Int)
  | vnone
deriving DecidableEq, Repr

def PyVal.pyStr : PyVal → String
  | PyVal.str s => s
  | PyVal.int n => toString n
  | PyVal.vnone => "None"

def PyVal.truthy : PyVal → Bool
  | PyVal.str s => !(s == "")
  | PyVal.int n => !(n == 0)
  | PyVal.vnone => false

/-- Python `x or y` on values (used for the `a or b or c` chains). -/
def pyOr (a b : PyVal) : PyVal := if a.truthy then a else b

/-- Lower-case a string character by character, modelling `str.lower()`. -/
def strLower (s : String) : String := ⟨s.data.map Char.toLower⟩

def trimChars (l : List Char) : List Char :=
  ((l.dropWhile Char.isWhitespace).reverse.dropWhile Char.isWhitespace).reverse

/-- Strip leading and trailing whitespace, modelling `str.strip()`. -/
def strStrip (s : String) : String := ⟨trimChars s.data⟩

/-- Split into maximal whitespace-free words, modelling `str.split()`
(which drops empty pieces); `cur` accumulates the current word reversed. -/
def wordsAux (cur : List Char) : List Char → List (List Char)
  | [] => if cur.isEmpty then [] else [cur.reverse]
  | c :: cs =>
    if c.isWhitespace then
      if cur.isEmpty then wordsAux [] cs else cur.reverse :: wordsAux [] cs
    else wordsAux (c :: cur) cs

/-- `" ".join(words)`. -/
def joinWords : List (List Char) → List Char
  | [] => []
  | [w] => w
  | w :: ws => w ++ ' ' :: joinWords ws

/-- `schema.normalize_question`: `" ".join(q.strip().lower().split())`.
The leading `strip()` is absorbed by `split()`, which already discards
empty pieces at either end. -/
def normalize_question (q : String) : String :=
  ⟨joinWords (wordsAux [] ((strLower q).data))⟩

/-- `schema.SHEET_COLUMNS`, the canonical header order. -/
def SHEET_COLUMNS : List String :=
  ["date",
   "complaint_received_by",
   "first_name",
   "last_name",
   "phone_no",
   "email_address",
   "address",
   "product_name",
   "product_size",
   "lot_serial_no",
   "quantity",
   "purchased_from_distributor",
   "country",
   "complaint_description",
   "complaint_evaluation_level",
   "report_to_authorities",
   "used_on_patient",
   "cleaned_before_sending_back_to_rn",
   "system_kind",
   "primary_solution",
   "comments",
   "complaint_no",
   "date_received_at_qa",
   "submission_timestamp"]

/-- `schema.QUESTION_MAP`: normalized question text to canonical key. -/
def QUESTION_MAP : List (String × String) :=
  [("date", "date"),
   ("complaint received by", "complaint_received_by"),
   ("first name", "first_name"),
   ("last name", "last_name"),
   ("phone number", "phone_no"),
   ("phone no", "phone_no"),
   ("email address", "email_address"),
   ("address", "address"),
   ("product name", "product_name"),
   ("product size", "product_size"),
   ("lot / serial number", "lot_serial_no"),
   ("lot / serial no", "lot_serial_no"),
   ("lot/serial no", "lot_serial_no"),
   ("quantity", "quantity"),
   ("purchased from (distributer)", "purchased_from_distributor"),
   ("purchased from (distributor)", "purchased_from_distributor"),
   ("country", "country"),
   ("complaint description", "complaint_description"),
   ("complaint type", "complaint_evaluation_level"),
   ("should this complaint be reported to authorities ?", "report_to_authorities"),
   ("was the device used on a patient?", "used_on_patient"),
   ("was the device cleaned before sending back to rn?", "cleaned_before_sending_back_to_rn"),
   ("what kind of system is this?", "system_kind"),
   ("primary solution (if provided)", "primary_solution"),
   ("comments (if applicable)", "comments"),
   ("complaint no.", "complaint_no"),
   ("complaint no", "complaint_no"),
   ("date complaint received at qa", "date_received_at_qa"),
   ("timestamp", "submission_timestamp"),
   ("submission_timestamp", "submission_timestamp")]

/-- `QUESTION_MAP.get(nk)`. -/
def lookupQM (nk : String) : Option String :=
  (QUESTION_MAP.find? (fun p => p.1 == nk)).map Prod.snd

/-- A Python dict with string keys, in insertion order. -/
def StrDict := List (String × PyVal)

/-- `k in d`. -/
def containsKey (d : List (String × PyVal)) (k : String) : Bool :=
  d.any (fun p => p.1 == k)

/-- `d.get(k)`: `some v` when present, `none` when absent. -/
def dictGet (d : List (String × PyVal)) (k : String) : Option PyVal :=
  (d.find? (fun p => p.1 == k)).map Prod.snd

/-- `d[k] = v` on a Python dict: overwrite in place when the key exists
(insertion order kept), append otherwise. -/
def dictSet (d : List (String × PyVal)) (k : String) (v : PyVal) : List (String × PyVal) :=
  if containsKey d k then d.map (fun p => if p.1 == k then (p.1, v) else p)
  else d ++ [(k, v)]

/-- `d.get(k)` on a dict with arbitrary (PyVal) keys. -/
def pyDictGet (d : List (PyVal × PyVal)) (k : PyVal) : Option PyVal :=
  (d.find? (fun p => p.1 == k)).map Prod.snd

/-- Truthiness of `d.get(k)` (a missing key yields falsy None). -/
def pyTruthyOpt (o : Option PyVal) : Bool := (o.getD PyVal.vnone).truthy

/-- `out = {k: "" for k in SHEET_COLUMNS}`. -/
def initRecord : List (String × PyVal) :=
  SHEET_COLUMNS.map (fun c => (c, PyVal.str ""))

/-- The `elif k in out: out[k] = value` fallback of the loop body of
`normalize_fields` (only a string key can equal an existing key). -/
def applyEntryFallback (out : List (String × PyVal)) (kv : PyVal × PyVal) :
    List (String × PyVal) :=
  match kv.1 with
  | PyVal.str s => if containsKey out s then dictSet out s kv.2 else out
  | _ => out

/-- One iteration of the loop of `form_mapping.normalize_fields`:
`nk = normalize_question(str(k)); mapped = QUESTION_MAP.get(nk);
if mapped: out[mapped] = v; elif k in out: out[k] = v`.
An empty-string `mapped` would be falsy in Python, hence the extra test. -/
def applyEntry (out : List (String × PyVal)) (kv : PyVal × PyVal) :
    List (String × PyVal) :=
  match lookupQM (normalize_question kv.1.pyStr) with
  | some mapped =>
      if mapped == "" then applyEntryFallback out kv else dictSet out mapped kv.2
  | Option.none => applyEntryFallback out kv

/-- The main loop of `normalize_fields` (lines 14-23 of form_mapping.py). -/
def mainPass (raw : List (PyVal × PyVal)) : List (String × PyVal) :=
  raw.foldl applyEntry initRecord

/-- `form_mapping.normalize_fields`: the main mapping loop followed by the
`timestamp` post-pass
(`if not out.get("submission_timestamp") and raw_fields.get("timestamp")`). -/
def normalize_fields (raw : List (PyVal × PyVal)) : List (String × PyVal) :=
  let out := mainPass raw
  if !(pyTruthyOpt (dictGet out "submission_timestamp"))
      && pyTruthyOpt (pyDictGet raw (PyVal.str "timestamp")) then
    dictSet out "submission_timestamp"
      ((pyDictGet raw (PyVal.str "timestamp")).getD PyVal.vnone)
  else out

/-! ### Association-list dictionary lemmas -/

theorem find?_cons_if {α : Type} (p : α → Bool) (a : α) (l : List α) :
    (a :: l).find? p = if p a then some a else l.find? p := by
  by_cases h : p a
  · simp [List.find?_cons_of_pos _ h, h]
  · simp [List.find?_cons_of_neg _ h, h]

theorem dictGet_cons (q : String × PyVal) (d : List (String × PyVal)) (k : String) :
    dictGet (q :: d) k = if q.1 = k then some q.2 else dictGet d k := by
  simp only [dictGet, find?_cons_if, beq_iff_eq]
  by_cases h : q.1 = k <;> simp [h]

theorem containsKey_cons (q : String × PyVal) (d : List (String × PyVal)) (k : String) :
    containsKey (q :: d) k = (q.1 = k || containsKey d k) := by
  simp only [containsKey, List.any_cons]
  congr 1

theorem containsKey_iff (d : List (String × PyVal)) (k : String) :
    containsKey d k = true ↔ k ∈ d.map Prod.fst := by
  induction d with
  | nil => simp [containsKey]
  | cons q d ih =>
    rw [containsKey_cons]
    simp only [List.map_cons, List.mem_cons, Bool.or_eq_true, decide_eq_true_eq, ih]
    constructor
    · rintro (h | h)
      · exact Or.inl h.symm
      · exact Or.inr h
    · rintro (h | h)
      · exact Or.inl h.symm
      · exact Or.inr h

/-- The overwrite branch of `dictSet`. -/
def setPresent (d : List (String × PyVal)) (k : String) (v : PyVal) :
    List (String × PyVal) :=
  d.map (fun p => if p.1 == k then (p.1, v) else p)

theorem dictSet_of_contains (d : List (String × PyVal)) (k : String) (v : PyVal)
    (h : containsKey d k = true) : dictSet d k v = setPresent d k v := by
  simp [dictSet, h, setPresent]

theorem keys_setPresent (d : List (String × PyVal)) (k : String) (v : PyVal) :
    (setPresent d k v).map Prod.fst = d.map Prod.fst := by
  unfold setPresent
  rw [List.map_map]
  apply List.map_congr_left
  intro p _
  by_cases hpk : p.1 = k <;> simp [hpk]

theorem keys_dictSet (d : List (String × PyVal)) (k : String) (v : PyVal)
    (h : containsKey d k = true) :
    (dictSet d k v).map Prod.fst = d.map Prod.fst := by
  rw [dictSet_of_contains d k v h, keys_setPresent]

theorem setPresent_cons (q : String × PyVal) (d : List (String × PyVal)) (k : String)
    (v : PyVal) :
    setPresent (q :: d) k v
      = (if q.1 = k then (q.1, v) else q) :: setPresent d k v := by
  simp only [setPresent, List.map_cons, beq_iff_eq]

theorem dictGet_setPresent_self (d : List (String × PyVal)) (k : String) (v : PyVal)
    (h : containsKey d k = true) :
    dictGet (setPresent d k v) k = some v := by
  induction d with
  | nil => simp [containsKey] at h
  | cons q d ih =>
    rw [setPresent_cons, dictGet_cons]
    by_cases hqk : q.1 = k
    · simp [hqk]
    · rw [containsKey_cons] at h
      simp only [hqk, decide_eq_true_eq, Bool.or_eq_true, false_or] at h
      simp only [hqk, if_false]
      exact ih h

theorem dictGet_setPresent_ne (d : List (String × PyVal)) (k k' : String) (v : PyVal)
    (h : k' ≠ k) : dictGet (setPresent d k v) k' = dictGet d k' := by
  induction d with
  | nil => rfl
  | cons q d ih =>
    rw [setPresent_cons, dictGet_cons, dictGet_cons]
    by_cases hqk : q.1 = k
    · have : k ≠ k' := fun he => h he.symm
      simp [hqk, this, ih]
    · simp only [hqk, if_false]
      by_cases hqk' : q.1 = k' <;> simp [hqk', ih]

theorem dictGet_dictSet_self (d : List (String × PyVal)) (k : String) (v : PyVal)
    (h : containsKey d k = true) :
    dictGet (dictSet d k v) k = some v := by
  rw [dictSet_of_contains d k v h]; exact dictGet_setPresent_self d k v h

theorem dictGet_dictSet_ne (d : List (String × PyVal)) (k k' : String) (v : PyVal)
    (h : k' ≠ k) (hc : containsKey d k = true) :
    dictGet (dictSet d k v) k' = dictGet d k' := by
  rw [dictSet_of_contains d k v hc]; exact dictGet_setPresent_ne d k k' v h

theorem dictGet_isSome (d : List (String × PyVal)) (k : String) :
    (dictGet d k).isSome = containsKey d k := by
  induction d with
  | nil => rfl
  | cons q d ih =>
    rw [dictGet_cons, containsKey_cons]
    by_cases hqk : q.1 = k <;> simp [hqk, ih]

/-! ### Structure of one loop iteration of normalize_fields -/

/-- The canonical key (if any) that the `elif k in out` fallback would
write, given that the output record always carries exactly the canonical
keys. -/
def entryFallbackTarget (k : PyVal) : Option String :=
  match k with
  | PyVal.str s => if SHEET_COLUMNS.contains s then some s else Option.none
  | _ => Option.none

/-- The canonical key (if any) an input entry with key `k` writes to:
the `QUESTION_MAP` image of the normalized key when that is present (and
truthy), else the verbatim-canonical fallback, else none (dropped). -/
def entryTarget (k : PyVal) : Option String :=
  match lookupQM (normalize_question k.pyStr) with
  | some mapped => if mapped == "" then entryFallbackTarget k else some mapped
  | Option.none => entryFallbackTarget k

theorem qm_values_canonical :
    ∀ p ∈ QUESTION_MAP, p.2 ∈ SHEET_COLUMNS ∧ p.2 ≠ "" := by decide

theorem lookupQM_canonical (nk m : String) (h : lookupQM nk = some m) :
    m ∈ SHEET_COLUMNS ∧ m ≠ "" := by
  unfold lookupQM at h
  cases hf : QUESTION_MAP.find? (fun p => p.1 == nk) with
  | none => rw [hf] at h; cases h
  | some q =>
    rw [hf] at h
    have h2 : (some q.2 : Option String) = some m := h
    cases h2
    exact qm_values_canonical q (List.mem_of_find?_eq_some hf)

theorem entryTarget_some_qm (k : PyVal) (m : String)
    (hq : lookupQM (normalize_question k.pyStr) = some m) :
    entryTarget k = if m == "" then entryFallbackTarget k else some m := by
  unfold entryTarget
  rw [hq]

theorem entryTarget_none_qm (k : PyVal)
    (hq : lookupQM (normalize_question k.pyStr) = Option.none) :
    entryTarget k = entryFallbackTarget k := by
  unfold entryTarget
  rw [hq]

theorem applyEntry_some_qm (out : List (String × PyVal)) (kv : PyVal × PyVal) (m : String)
    (hq : lookupQM (normalize_question kv.1.pyStr) = some m) :
    applyEntry out kv
      = if m == "" then applyEntryFallback out kv else dictSet out m kv.2 := by
  unfold applyEntry
  rw [hq]

theorem applyEntry_none_qm (out : List (String × PyVal)) (kv : PyVal × PyVal)
    (hq : lookupQM (normalize_question kv.1.pyStr) = Option.none) :
    applyEntry out kv = applyEntryFallback out kv := by
  unfold applyEntry
  rw [hq]

theorem entryFallbackTarget_canonical (k : PyVal) (c : String)
    (h : entryFallbackTarget k = some c) : c ∈ SHEET_COLUMNS := by
  cases k with
  | str s =>
    have h2 : (if SHEET_COLUMNS.contains s then some s else (Option.none : Option String))
        = some c := h
    by_cases hs : SHEET_COLUMNS.contains s
    · rw [if_pos hs] at h2
      cases h2
      exact List.elem_iff.mp hs
    · rw [if_neg hs] at h2
      cases h2
  | int n => cases h
  | vnone => cases h

theorem entryTarget_canonical (k : PyVal) (c : String) (h : entryTarget k = some c) :
    c ∈ SHEET_COLUMNS := by
  cases hq : lookupQM (normalize_question k.pyStr) with
  | none =>
    rw [entryTarget_none_qm k hq] at h
    exact entryFallbackTarget_canonical k c h
  | some m =>
    rw [entryTarget_some_qm k m hq] at h
    by_cases hm : (m == "") = true
    · rw [if_pos hm] at h
      exact entryFallbackTarget_canonical k c h
    · rw [if_neg hm] at h
      cases h
      exact (lookupQM_canonical _ _ hq).1

/-- Under the canonical-key-set invariant, one loop iteration is exactly a
write to `entryTarget` (or a no-op when the entry is dropped). -/
theorem applyEntry_eq_target (out : List (String × PyVal)) (kv : PyVal × PyVal)
    (h : out.map Prod.fst = SHEET_COLUMNS) :
    applyEntry out kv
      = match entryTarget kv.1 with
        | some c => dictSet out c kv.2
        | Option.none => out := by
  have hfb : applyEntryFallback out kv
      = match entryFallbackTarget kv.1 with
        | some c => dictSet out c kv.2
        | Option.none => out := by
    obtain ⟨k, v⟩ := kv
    cases k with
    | str s =>
      have hcc : containsKey out s = SHEET_COLUMNS.contains s := by
        rw [Bool.eq_iff_iff, containsKey_iff, h]
        exact (List.elem_iff).symm
      show (if containsKey out s then dictSet out s v else out)
          = match (if SHEET_COLUMNS.contains s then some s else (Option.none : Option String)) with
            | some c => dictSet out c v
            | Option.none => out
      by_cases hs : SHEET_COLUMNS.contains s
      · rw [if_pos (hcc.trans hs), if_pos hs]
      · rw [if_neg (by rw [hcc]; exact hs), if_neg hs]
    | int n => rfl
    | vnone => rfl
  cases hq : lookupQM (normalize_question kv.1.pyStr) with
  | none =>
    rw [applyEntry_none_qm out kv hq, entryTarget_none_qm kv.1 hq, hfb]
  | some m =>
    rw [applyEntry_some_qm out kv m hq, entryTarget_some_qm kv.1 m hq]
    by_cases hm : (m == "") = true
    · rw [if_pos hm, if_pos hm, hfb]
    · rw [if_neg hm, if_neg hm]

theorem keys_applyEntry (out : List (String × PyVal)) (kv : PyVal × PyVal)
    (h : out.map Prod.fst = SHEET_COLUMNS) :
    (applyEntry out kv).map Prod.fst = SHEET_COLUMNS := by
  rw [applyEntry_eq_target out kv h]
  cases ht : entryTarget kv.1 with
  | none => exact h
  | some c =>
    have hc : containsKey out c = true := by
      rw [containsKey_iff, h]
      exact entryTarget_canonical kv.1 c ht
    rw [keys_dictSet out c kv.2 hc]
    exact h

theorem keys_foldl (raw : List (PyVal × PyVal)) :
    ∀ out : List (String × PyVal), out.map Prod.fst = SHEET_COLUMNS →
      (raw.foldl applyEntry out).map Prod.fst = SHEET_COLUMNS := by
  induction raw with
  | nil => intro out h; exact h
  | cons kv rest ih =>
    intro out h
    exact ih (applyEntry out kv) (keys_applyEntry out kv h)

theorem initRecord_keys : initRecord.map Prod.fst = SHEET_COLUMNS := by decide

theorem keys_mainPass (raw : List (PyVal × PyVal)) :
    (mainPass raw).map Prod.fst = SHEET_COLUMNS :=
  keys_foldl raw initRecord initRecord_keys

theorem keys_normalize_fields (raw : List (PyVal × PyVal)) :
    (normalize_fields raw).map Prod.fst = SHEET_COLUMNS := by
  unfold normalize_fields
  by_cases hc : (!(pyTruthyOpt (dictGet (mainPass raw) "submission_timestamp"))
      && pyTruthyOpt (pyDictGet raw (PyVal.str "timestamp"))) = true
  · simp only [hc, if_true]
    have hst : containsKey (mainPass raw) "submission_timestamp" = true := by
      rw [containsKey_iff, keys_mainPass]
      decide
    rw [keys_dictSet _ _ _ hst]
    exact keys_mainPass raw
  · simp only [Bool.not_eq_true] at hc
    simp only [hc, Bool.false_eq_true, if_false]
    exact keys_mainPass raw

/-- Value of a canonical key after the main loop: the last input entry
whose target is that key wins; keys never written keep the initial value. -/
theorem foldl_char (raw : List (PyVal × PyVal)) :
    ∀ out : List (String × PyVal), out.map Prod.fst = SHEET_COLUMNS →
      ∀ c : String, c ∈ SHEET_COLUMNS →
        dictGet (raw.foldl applyEntry out) c
          = match raw.reverse.find? (fun kv => entryTarget kv.1 == some c) with
            | some kv => some kv.2
            | Option.none => dictGet out c := by
  induction raw with
  | nil => intro out _ c _; rfl
  | cons kv rest ih =>
    intro out hout c hc
    have hkeys : (applyEntry out kv).map Prod.fst = SHEET_COLUMNS :=
      keys_applyEntry out kv hout
    have hstep := ih (applyEntry out kv) hkeys c hc
    simp only [List.foldl_cons]
    rw [hstep]
    have hrev : (kv :: rest).reverse = rest.reverse ++ [kv] := by
      simp
    rw [hrev]
    cases hfind : rest.reverse.find? (fun kv => entryTarget kv.1 == some c) with
    | some kv' =>
      have happ : (rest.reverse ++ [kv]).find? (fun kv => entryTarget kv.1 == some c)
          = some kv' := by
        rw [List.find?_append, hfind]
        rfl
      rw [happ]
    | none =>
      have happ : (rest.reverse ++ [kv]).find? (fun kv => entryTarget kv.1 == some c)
          = [kv].find? (fun kv => entryTarget kv.1 == some c) := by
        rw [List.find?_append, hfind]
        rfl
      rw [happ]
      rw [applyEntry_eq_target out kv hout]
      cases ht : entryTarget kv.1 with
      | none =>
        have hp : (entryTarget kv.1 == some c) = false := by simp [ht]
        rw [find?_cons_if, hp]
        rfl
      | some c' =>
        have hcontains : containsKey out c' = true := by
          rw [containsKey_iff, hout]
          exact entryTarget_canonical kv.1 c' ht
        by_cases hcc : c' = c
        · have hp : (entryTarget kv.1 == some c) = true := by simp [ht, hcc]
          rw [find?_cons_if, hp]
          show dictGet (dictSet out c' kv.2) c = some kv.2
          rw [hcc] at hcontains ⊢
          exact dictGet_dictSet_self out c kv.2 hcontains
        · have hp : (entryTarget kv.1 == some c) = false := by simp [ht, hcc]
          rw [find?_cons_if, hp]
          show dictGet (dictSet out c' kv.2) c = dictGet out c
          exact dictGet_dictSet_ne out c' c kv.2 (fun he => hcc he.symm) hcontains

theorem dictGet_defaulted (c : String) :
    ∀ S : List String, c ∈ S →
      dictGet (S.map fun x => (x, PyVal.str "")) c = some (PyVal.str "") := by
  intro S
  induction S with
  | nil => intro h; cases h
  | cons s S ih =>
    intro h
    rw [List.map_cons, dictGet_cons]
    by_cases hs : s = c
    · simp [hs]
    · have hne : ((s, PyVal.str "").1 = c) = (s = c) := rfl
      rw [if_neg (by rw [hne]; exact hs)]
      rcases List.mem_cons.mp h with he | hm
      · exact absurd he.symm hs
      · exact ih hm

theorem dictGet_initRecord (c : String) (hc : c ∈ SHEET_COLUMNS) :
    dictGet initRecord c = some (PyVal.str "") :=
  dictGet_defaulted c SHEET_COLUMNS hc

/-! ### Claim theorems for the Field Normalizer -/

/-- Claim C3: `normalize_fields` is total (in this embedding every function
is total, and the loop handles arbitrary keys and values through `str(k)`
and dictionary membership) and its result always contains every canonical
key of `SHEET_COLUMNS`; on the empty mapping every key carries the
empty-string default. -/
theorem normalize_fields_total_all_keys (raw : List (PyVal × PyVal)) :
    (∀ c ∈ SHEET_COLUMNS, (dictGet (normalize_fields raw) c).isSome = true)
    ∧ normalize_fields [] = initRecord := by
  constructor
  · intro c hc
    rw [dictGet_isSome, containsKey_iff, keys_normalize_fields]
    exact hc
  · decide

theorem normalize_fields_total_all_keys_witness :
    ("date" ∈ SHEET_COLUMNS)
    ∧ (dictGet (normalize_fields []) "date").isSome = true :=
  ⟨by decide, (normalize_fields_total_all_keys []).1 "date" (by decide)⟩

/-- Claim C4: the field-mapping algorithm of the main loop of
`normalize_fields`.  For each canonical key `c`, the final value is the
value of the last input entry targeting `c` — through the
`QUESTION_MAP` lookup of the normalized key when present, else the
verbatim-canonical-key fallback (this is `entryTarget`) — with the
empty-string default when no entry targets `c`; an entry with no target is
dropped silently (appending it changes nothing). -/
theorem mainPass_mapping_algorithm (raw : List (PyVal × PyVal)) (c : String)
    (hc : c ∈ SHEET_COLUMNS) :
    dictGet (mainPass raw) c
      = some (((raw.reverse.find? (fun kv => entryTarget kv.1 == some c)).map
          Prod.snd).getD (PyVal.str ""))
    ∧ ∀ kv : PyVal × PyVal, entryTarget kv.1 = Option.none →
        mainPass (raw ++ [kv]) = mainPass raw := by
  constructor
  · unfold mainPass
    rw [foldl_char raw initRecord initRecord_keys c hc]
    cases hf : raw.reverse.find? (fun kv => entryTarget kv.1 == some c) with
    | some kv => rfl
    | none =>
      show dictGet initRecord c = some (PyVal.str "")
      exact dictGet_initRecord c hc
  · intro kv ht
    unfold mainPass
    rw [List.foldl_append]
    show applyEntry (raw.foldl applyEntry initRecord) kv = raw.foldl applyEntry initRecord
    rw [applyEntry_eq_target _ kv (keys_foldl raw initRecord initRecord_keys), ht]

theorem mainPass_mapping_algorithm_witness :
    ("first_name" ∈ SHEET_COLUMNS)
    ∧ dictGet (mainPass [(PyVal.str "First Name", PyVal.str "Ada")]) "first_name"
        = some ((([(PyVal.str "First Name", PyVal.str "Ada")].reverse.find?
            (fun kv => entryTarget kv.1 == some "first_name")).map Prod.snd).getD
              (PyVal.str "")) :=
  ⟨by decide,
   (mainPass_mapping_algorithm [(PyVal.str "First Name", PyVal.str "Ada")]
      "first_name" (by decide)).1⟩

/-- Claim C5 counterexample: for the input mapping
`{"timestamp": 0, "submission_timestamp": ""}` the canonical
`submission_timestamp` field is empty after the main pass and the input
contains the top-level key `timestamp`, yet the output does not equal the
raw `timestamp` value: Python truthiness makes the post-pass skip the
falsy value `0`, so the output keeps the empty string. -/
theorem timestamp_postpass_counterexample :
    dictGet (mainPass [(PyVal.str "timestamp", PyVal.int 0),
        (PyVal.str "submission_timestamp", PyVal.str "")]) "submission_timestamp"
      = some (PyVal.str "")
    ∧ pyDictGet [(PyVal.str "timestamp", PyVal.int 0),
        (PyVal.str "submission_timestamp", PyVal.str "")] (PyVal.str "timestamp")
      = some (PyVal.int 0)
    ∧ ¬ (dictGet (normalize_fields [(PyVal.str "timestamp", PyVal.int 0),
        (PyVal.str "submission_timestamp", PyVal.str "")]) "submission_timestamp"
      = some (PyVal.int 0)) := by decide

/-- Claim C5 (amended): if after the main pass `submission_timestamp`
holds a falsy value and the input contains a top-level key literally named
`timestamp`, the post-pass copies the raw `timestamp` value exactly when
that value is truthy; a falsy `timestamp` value is not copied and the
main-pass value remains. -/
theorem timestamp_postpass_amended (raw : List (PyVal × PyVal)) (v t : PyVal)
    (h1 : dictGet (mainPass raw) "submission_timestamp" = some v)
    (h2 : v.truthy = false)
    (h3 : pyDictGet raw (PyVal.str "timestamp") = some t) :
    dictGet (normalize_fields raw) "submission_timestamp"
      = some (if t.truthy then t else v) := by
  have hcond : (!(pyTruthyOpt (dictGet (mainPass raw) "submission_timestamp"))
      && pyTruthyOpt (pyDictGet raw (PyVal.str "timestamp"))) = t.truthy := by
    rw [h1, h3]
    show ((!(PyVal.truthy v)) && t.truthy) = t.truthy
    rw [h2]
    rfl
  have hup : containsKey (mainPass raw) "submission_timestamp" = true := by
    rw [containsKey_iff, keys_mainPass]
    decide
  show dictGet (if !(pyTruthyOpt (dictGet (mainPass raw) "submission_timestamp"))
      && pyTruthyOpt (pyDictGet raw (PyVal.str "timestamp")) then
      dictSet (mainPass raw) "submission_timestamp"
        ((pyDictGet raw (PyVal.str "timestamp")).getD PyVal.vnone)
    else mainPass raw) "submission_timestamp" = some (if t.truthy then t else v)
  rw [hcond]
  cases htr : t.truthy with
  | true =>
    rw [h3]
    show dictGet (dictSet (mainPass raw) "submission_timestamp" t)
        "submission_timestamp" = some t
    exact dictGet_dictSet_self _ _ _ hup
  | false =>
    show dictGet (mainPass raw) "submission_timestamp" = some v
    exact h1

theorem timestamp_postpass_amended_witness :
    dictGet (normalize_fields [(PyVal.str "timestamp", PyVal.str "T"),
        (PyVal.str "Timestamp", PyVal.str "")]) "submission_timestamp"
      = some (if (PyVal.str "T").truthy then PyVal.str "T" else PyVal.str "") :=
  timestamp_postpass_amended
    [(PyVal.str "timestamp", PyVal.str "T"), (PyVal.str "Timestamp", PyVal.str "")]
    (PyVal.str "") (PyVal.str "T") (by decide) (by decide) (by decide)

/-- Claim C10: the key set (in fact the ordered key list) of the record
returned by `normalize_fields` is exactly `SHEET_COLUMNS` for every input,
resting on the invariant that every value of `QUESTION_MAP` is itself a
canonical key. -/
theorem normalize_fields_key_set (raw : List (PyVal × PyVal)) :
    (normalize_fields raw).map Prod.fst = SHEET_COLUMNS
    ∧ ∀ p ∈ QUESTION_MAP, p.2 ∈ SHEET_COLUMNS :=
  ⟨keys_normalize_fields raw, fun p hp => (qm_values_canonical p hp).1⟩

theorem normalize_fields_key_set_witness :
    (("first name", "first_name") ∈ QUESTION_MAP) ∧ "first_name" ∈ SHEET_COLUMNS :=
  ⟨by decide, (normalize_fields_key_set []).2 ("first name", "first_name") (by decide)⟩

/-! ### Poll-and-Mark Engine (msforms_poll.run_msforms_poll) -/

/-- `msforms_poll.SYSTEM_COLS`. -/
def SYSTEM_COLS : List String := ["id", "start time", "completion time", "email", "name"]

/-- `msforms_poll.PROCESSED_COL_CANDIDATES`. -/
def PROCESSED_COL_CANDIDATES : List String := ["processed", "is processed", "done"]

/-- The processed markers of line 177 of msforms_poll.py. -/
def PROCESSED_MARKS : List String := ["yes", "true", "1", "y", "done"]

/-- `c.strip().lower()` applied to a fetched column name (line 145). -/
def normCol (c : String) : String := strLower (strStrip c)

/-- Python `enumerate` with `break` at the first match. -/
def firstMatchIdx (p : String → Bool) : List String → Option Nat
  | [] => Option.none
  | c :: cs => if p c then some 0 else (firstMatchIdx p cs).map (· + 1)

/-- The processed-column resolution of lines 148-158: a first pass over the
normalized column names against `PROCESSED_COL_CANDIDATES`, then a
fallback pass matching exactly `"processed"`. -/
def findProcessedIdx (cols : List String) : Option Nat :=
  match firstMatchIdx (fun c => PROCESSED_COL_CANDIDATES.contains c) (cols.map normCol) with
  | some i => some i
  | Option.none => firstMatchIdx (fun c => c == "processed") (cols.map normCol)

/-- One row of the fetched table snapshot: `row["index"]` and
`row["values"][0]`. -/
structure PollRow where
  index : Int
  values : List PyVal
deriving DecidableEq, Repr

/-- The external collaborators of one loop iteration: `deliver` stands for
the PDF build, local file writes, SharePoint uploads and optional email of
lines 213-262 (true = all succeed), and `writeRow` for
`_update_row_values` (true = the PATCH succeeds). -/
structure PollEnv where
  deliver : Int → List (String × PyVal) → Bool
  writeRow : Int → List PyVal → Bool

/-- Observable effects accumulated by the poll loop: rows delivered, rows
written back (with the values written), and the `processed_count`
counter. -/
structure RunState where
  delivered : List Int
  written : List (Int × List PyVal)
  processedCount : Nat
deriving DecidableEq, Repr

def initRunState : RunState := ⟨[], [], 0⟩

/-- The exceptions that can escape the poll loop or the column fetch. -/
inductive RunError where
  | noProcessedCol
  | deliverFail (rowIndex : Int)
  | writeFail (rowIndex : Int)
deriving DecidableEq, Repr

/-- `already = str(values[processed_idx]).strip().lower() if processed_idx
< len(values) else ""` followed by the membership test of line 177. -/
def isAlreadyProcessed (pIdx : Nat) (values : List PyVal) : Bool :=
  let already := if pIdx < values.length
    then strLower (strStrip (values.getD pIdx (PyVal.str "")).pyStr)
    else ""
  PROCESSED_MARKS.contains already

/-- `completion_time`/`start_time`/`timestamp` derivation of lines 187-189
(`str(raw_row.get("Completion time") or raw_row.get("completion time") or
"")`, then `timestamp = completion_time or start_time`). -/
def rowTimestamp (rawRow : List (String × PyVal)) : String :=
  let completion := (pyOr ((dictGet rawRow "Completion time").getD PyVal.vnone)
      (pyOr ((dictGet rawRow "completion time").getD PyVal.vnone) (PyVal.str ""))).pyStr
  let start := (pyOr ((dictGet rawRow "Start time").getD PyVal.vnone)
      (pyOr ((dictGet rawRow "start time").getD PyVal.vnone) (PyVal.str ""))).pyStr
  if completion == "" then start else completion

/-- `cleaned_fields` of lines 192-199: drop system columns and the
processed-column candidates (by stripped, lower-cased name). -/
def cleanedFields (rawRow : List (String × PyVal)) : List (PyVal × PyVal) :=
  (rawRow.filter (fun p =>
      let kn := normCol p.1
      !(SYSTEM_COLS.contains kn) && !(PROCESSED_COL_CANDIDATES.contains kn))).map
    (fun p => (PyVal.str p.1, p.2))

/-- The canonical record handed to delivery for one unprocessed row:
`raw_row` from `zip(cols, values)`, system columns stripped,
`normalize_fields`, then the `date` and `submission_timestamp` defaults of
lines 205-211. -/
def pollNorm (cols : List String) (values : List PyVal) : List (String × PyVal) :=
  let rawRow := cols.zip values
  let ts := rowTimestamp rawRow
  let norm := normalize_fields (cleanedFields rawRow)
  let norm1 := if !(pyTruthyOpt (dictGet norm "date")) && !(ts == "")
    then dictSet norm "date" (PyVal.str ts) else norm
  if !(pyTruthyOpt (dictGet norm1 "submission_timestamp")) && !(ts == "")
    then dictSet norm1 "submission_timestamp" (PyVal.str ts) else norm1

/-- Marking of lines 264-270: write the sentinel `"Yes"` at the processed
column index, first padding the value list with empty strings when the
index is outside the current length. -/
def markProcessed (pIdx : Nat) (values : List PyVal) : List PyVal :=
  if pIdx < values.length then
    values.set pIdx (PyVal.str "Yes")
  else
    (values ++ List.replicate (pIdx - values.length + 1) (PyVal.str "")).set pIdx
      (PyVal.str "Yes")

/-- The body of the `for row in rows` loop (lines 169-275).  There is no
try/except around it: the first failing delivery or write-back escapes as
an exception (`some e`), everything before it keeps its effects. -/
def processRow (env : PollEnv) (pIdx : Nat) (cols : List String) (st : RunState)
    (row : PollRow) : RunState × Option RunError :=
  if row.index < 0 || row.values.isEmpty then (st, Option.none)
  else if isAlreadyProcessed pIdx row.values then (st, Option.none)
  else if env.deliver row.index (pollNorm cols row.values) then
    if env.writeRow row.index (markProcessed pIdx row.values) then
      ({ delivered := st.delivered ++ [row.index],
         written := st.written ++ [(row.index, markProcessed pIdx row.values)],
         processedCount := st.processedCount + 1 }, Option.none)
    else ({ st with delivered := st.delivered ++ [row.index] },
          some (RunError.writeFail row.index))
  else (st, some (RunError.deliverFail row.index))

/-- Sequential processing of the fetched snapshot; an escaped exception
stops the loop (and the whole run). -/
def runRows (env : PollEnv) (pIdx : Nat) (cols : List String) :
    List PollRow → RunState → RunState × Option RunError
  | [], st => (st, Option.none)
  | r :: rs, st =>
    match processRow env pIdx cols st r with
    | (st1, Option.none) => runRows env pIdx cols rs st1
    | (st1, some e) => (st1, some e)

instance : DecidableEq (Except RunError Int) := fun a b =>
  match a, b with
  | Except.ok n, Except.ok m =>
    if h : n = m then isTrue (by rw [h])
    else isFalse (by intro he; cases he; exact h rfl)
  | Except.error e, Except.error f =>
    if h : e = f then isTrue (by rw [h])
    else isFalse (by intro he; cases he; exact h rfl)
  | Except.ok _, Except.error _ => isFalse (by intro he; cases he)
  | Except.error _, Except.ok _ => isFalse (by intro he; cases he)

/-- Outcome of one poll invocation: the accumulated effects and either the
returned integer (the function ends with `return 0`) or the exception that
escaped. -/
structure RunOutcome where
  state : RunState
  result : Except RunError Int
deriving DecidableEq, Repr

/-- `msforms_poll.run_msforms_poll`, from the processed-column resolution
on: resolve the processed column (raising before any row is touched when
impossible), run the loop over the fetched rows, and `return 0`. -/
def run_msforms_poll (env : PollEnv) (cols : List String) (rows : List PollRow) :
    RunOutcome :=
  match findProcessedIdx cols with
  | Option.none => ⟨initRunState, Except.error RunError.noProcessedCol⟩
  | some pIdx =>
    match runRows env pIdx cols rows initRunState with
    | (st, Option.none) => ⟨st, Except.ok 0⟩
    | (st, some e) => ⟨st, Except.error e⟩

/-- An environment where every delivery and write-back succeeds. -/
def envAll : PollEnv := ⟨fun _ _ => true, fun _ _ => true⟩

/-! ### Case equations for one poll-loop iteration -/

theorem processRow_skip_guard (env : PollEnv) (pIdx : Nat) (cols : List String)
    (st : RunState) (row : PollRow)
    (hg : (decide (row.index < 0) || row.values.isEmpty) = true) :
    processRow env pIdx cols st row = (st, Option.none) := by
  unfold processRow
  rw [if_pos hg]

theorem processRow_skip_processed (env : PollEnv) (pIdx : Nat) (cols : List String)
    (st : RunState) (row : PollRow)
    (hg : (decide (row.index < 0) || row.values.isEmpty) = false)
    (hp : isAlreadyProcessed pIdx row.values = true) :
    processRow env pIdx cols st row = (st, Option.none) := by
  unfold processRow
  rw [if_neg (by simp [hg]), if_pos hp]

theorem processRow_deliver_fail (env : PollEnv) (pIdx : Nat) (cols : List String)
    (st : RunState) (row : PollRow)
    (hg : (decide (row.index < 0) || row.values.isEmpty) = false)
    (hp : isAlreadyProcessed pIdx row.values = false)
    (hd : env.deliver row.index (pollNorm cols row.values) = false) :
    processRow env pIdx cols st row = (st, some (RunError.deliverFail row.index)) := by
  unfold processRow
  rw [if_neg (by simp [hg]), if_neg (by simp [hp]), if_neg (by simp [hd])]

theorem processRow_write_ok (env : PollEnv) (pIdx : Nat) (cols : List String)
    (st : RunState) (row : PollRow)
    (hg : (decide (row.index < 0) || row.values.isEmpty) = false)
    (hp : isAlreadyProcessed pIdx row.values = false)
    (hd : env.deliver row.index (pollNorm cols row.values) = true)
    (hw : env.writeRow row.index (markProcessed pIdx row.values) = true) :
    processRow env pIdx cols st row
      = ({ delivered := st.delivered ++ [row.index],
           written := st.written ++ [(row.index, markProcessed pIdx row.values)],
           processedCount := st.processedCount + 1 }, Option.none) := by
  unfold processRow
  rw [if_neg (by simp [hg]), if_neg (by simp [hp]), if_pos hd, if_pos hw]

theorem processRow_write_fail (env : PollEnv) (pIdx : Nat) (cols : List String)
    (st : RunState) (row : PollRow)
    (hg : (decide (row.index < 0) || row.values.isEmpty) = false)
    (hp : isAlreadyProcessed pIdx row.values = false)
    (hd : env.deliver row.index (pollNorm cols row.values) = true)
    (hw : env.writeRow row.index (markProcessed pIdx row.values) = false) :
    processRow env pIdx cols st row
      = ({ st with delivered := st.delivered ++ [row.index] },
         some (RunError.writeFail row.index)) := by
  unfold processRow
  rw [if_neg (by simp [hg]), if_neg (by simp [hp]), if_pos hd, if_neg (by simp [hw])]

/-! ### Claim theorems for the Poll-and-Mark Engine -/

/-- Claim C6: a fetched row whose processed-column cell, stripped and
lower-cased (through `str`), is one of the processed markers is skipped
entirely: the loop iteration leaves the state unchanged with no error (no
delivery, no write-back, no count), and removing the row from the snapshot
does not change the run at all. -/
theorem processed_row_skipped (env : PollEnv) (pIdx : Nat) (cols : List String)
    (st : RunState) (rows1 rows2 : List PollRow) (row : PollRow)
    (h : PROCESSED_MARKS.contains
        (strLower (strStrip (row.values.getD pIdx (PyVal.str "")).pyStr)) = true) :
    processRow env pIdx cols st row = (st, Option.none)
    ∧ runRows env pIdx cols (rows1 ++ row :: rows2) st
        = runRows env pIdx cols (rows1 ++ rows2) st := by
  have hia : isAlreadyProcessed pIdx row.values = true := by
    show PROCESSED_MARKS.contains (if pIdx < row.values.length
      then strLower (strStrip (row.values.getD pIdx (PyVal.str "")).pyStr)
      else "") = true
    by_cases hlt : pIdx < row.values.length
    · rw [if_pos hlt]
      exact h
    · rw [if_neg hlt]
      have hgd : row.values.getD pIdx (PyVal.str "") = PyVal.str "" :=
        List.getD_eq_default row.values (PyVal.str "") (Nat.le_of_not_lt hlt)
    
      rw [hgd] at h
      exact absurd h (by decide)
  have h1 : ∀ st2 : RunState, processRow env pIdx cols st2 row = (st2, Option.none) := by
    intro st2
    by_cases hg : (decide (row.index < 0) || row.values.isEmpty) = true
    · exact processRow_skip_guard env pIdx cols st2 row hg
    · have hg2 : (decide (row.index < 0) || row.values.isEmpty) = false := by
        simpa using hg
      exact processRow_skip_processed env pIdx cols st2 row hg2 hia
  refine ⟨h1 st, ?_⟩
  induction rows1 generalizing st with
  | nil =>
    simp only [List.nil_append, runRows]
    rw [h1 st]
  | cons r1 rs1 ih =>
    simp only [List.cons_append, runRows]
    cases hpr : processRow env pIdx cols st r1 with
    | mk st2 eo =>
      cases eo with
      | none => exact ih st2
      | some e1 => rfl

theorem processed_row_skipped_witness :
    processRow envAll 1 ["Name", "Processed"] initRunState
        ⟨0, [PyVal.str "x", PyVal.str "Yes"]⟩ = (initRunState, Option.none)
    ∧ runRows envAll 1 ["Name", "Processed"]
        ([] ++ (⟨0, [PyVal.str "x", PyVal.str "Yes"]⟩ : PollRow) :: []) initRunState
      = runRows envAll 1 ["Name", "Processed"] ([] ++ []) initRunState :=
  processed_row_skipped envAll 1 ["Name", "Processed"] initRunState [] []
    ⟨0, [PyVal.str "x", PyVal.str "Yes"]⟩ (by decide)

/-! Helpers for the processed-column resolution -/

theorem firstMatchIdx_none (p : String → Bool) :
    ∀ l : List String, firstMatchIdx p l = Option.none → ∀ c ∈ l, p c = false := by
  intro l
  induction l with
  | nil => intro _ c hc; cases hc
  | cons a l ih =>
    intro h c hc
    unfold firstMatchIdx at h
    by_cases hp : p a = true
    · rw [if_pos hp] at h; cases h
    · rw [if_neg hp] at h
      have h2 : firstMatchIdx p l = Option.none := by
        cases hf : firstMatchIdx p l with
        | none => rfl
        | some j => rw [hf] at h; cases h
      rcases List.mem_cons.mp hc with he | hm
      · rw [he]; simpa using hp
      · exact ih h2 c hm

theorem firstMatchIdx_all_none (p : String → Bool) :
    ∀ l : List String, (∀ c ∈ l, p c = false) → firstMatchIdx p l = Option.none := by
  intro l
  induction l with
  | nil => intro _; rfl
  | cons a l ih =>
    intro h
    unfold firstMatchIdx
    rw [if_neg (by simp [h a (List.mem_cons_self a l)]),
      ih (fun c hc => h c (List.mem_cons.mpr (Or.inr hc)))]
    rfl

theorem firstMatchIdx_some (p : String → Bool) :
    ∀ (l : List String) (i : Nat), firstMatchIdx p l = some i →
      ∃ pre c post, l = pre ++ c :: post ∧ pre.length = i ∧ p c = true
        ∧ ∀ c2 ∈ pre, p c2 = false := by
  intro l
  induction l with
  | nil => intro i h; cases h
  | cons a l ih =>
    intro i h
    unfold firstMatchIdx at h
    by_cases hp : p a = true
    · rw [if_pos hp] at h
      cases h
      exact ⟨[], a, l, rfl, rfl, hp, by intro c2 hc2; cases hc2⟩
    · rw [if_neg hp] at h
      cases hf : firstMatchIdx p l with
      | none => rw [hf] at h; cases h
      | some j =>
        rw [hf] at h
        cases h
        obtain ⟨pre, c, post, hl, hlen, hpc, hpre⟩ := ih j hf
        refine ⟨a :: pre, c, post, ?_, ?_, hpc, ?_⟩
        · rw [hl]; rfl
        · simp [hlen]
        · intro c2 hc2
          rcases List.mem_cons.mp hc2 with he | hm
          · rw [he]; simpa using hp
          · exact hpre c2 hm

theorem firstMatchIdx_map (p : String → Bool) (f : String → String) :
    ∀ l : List String, firstMatchIdx p (l.map f) = firstMatchIdx (fun c => p (f c)) l := by
  intro l
  induction l with
  | nil => rfl
  | cons a l ih =>
    simp only [List.map_cons, firstMatchIdx, ih]

/-- The exact-`"processed"` fallback pass never finds anything the first
pass missed (since `"processed"` is itself a candidate), so resolution
equals the first case-insensitive match against the candidate set. -/
theorem findProcessedIdx_eq (cols : List String) :
    findProcessedIdx cols
      = firstMatchIdx (fun c => PROCESSED_COL_CANDIDATES.contains (normCol c)) cols := by
  unfold findProcessedIdx
  rw [firstMatchIdx_map, firstMatchIdx_map]
  cases hf : firstMatchIdx (fun c => PROCESSED_COL_CANDIDATES.contains (normCol c)) cols with
  | some i => rfl
  | none =>
    have hall := firstMatchIdx_none _ cols hf
    rw [firstMatchIdx_all_none _ cols ?_]
    intro c hc
    by_cases he : normCol c = "processed"
    · have := hall c hc
      rw [he] at this
      exact absurd this (by decide)
    · simp [he]

/-- Claim C7: the processed column is the first fetched column whose
stripped, lower-cased name is in `PROCESSED_COL_CANDIDATES` (the
exact-`"processed"` fallback pass adds nothing since `"processed"` is a
candidate); when no column matches, the run fails with the
configuration error before any row is touched (empty state). -/
theorem processed_col_resolution (env : PollEnv) (cols : List String)
    (rows : List PollRow) :
    (∀ i, findProcessedIdx cols = some i →
      ∃ pre c post, cols = pre ++ c :: post ∧ pre.length = i
        ∧ PROCESSED_COL_CANDIDATES.contains (normCol c) = true
        ∧ ∀ c2 ∈ pre, PROCESSED_COL_CANDIDATES.contains (normCol c2) = false)
    ∧ (findProcessedIdx cols = Option.none →
      (∀ c ∈ cols, PROCESSED_COL_CANDIDATES.contains (normCol c) = false)
      ∧ run_msforms_poll env cols rows
          = ⟨initRunState, Except.error RunError.noProcessedCol⟩) := by
  constructor
  · intro i hi
    rw [findProcessedIdx_eq] at hi
    exact firstMatchIdx_some _ cols i hi
  · intro hn
    have hn2 := hn
    rw [findProcessedIdx_eq] at hn2
    refine ⟨firstMatchIdx_none _ cols hn2, ?_⟩
    unfold run_msforms_poll
    rw [hn]

theorem processed_col_resolution_witness :
    (∀ c ∈ ["Name", "Email"], PROCESSED_COL_CANDIDATES.contains (normCol c) = false)
    ∧ run_msforms_poll envAll ["Name", "Email"] []
        = ⟨initRunState, Except.error RunError.noProcessedCol⟩ :=
  (processed_col_resolution envAll ["Name", "Email"] []).2 (by decide)

/-! Helpers for the marking step -/

theorem getElem?_set_self (a : PyVal) :
    ∀ (l : List PyVal) (n : Nat), n < l.length → (l.set n a).get? n = some a := by
  intro l
  induction l with
  | nil => intro n h; exact absurd h (Nat.not_lt_zero n)
  | cons b l ih =>
    intro n h
    cases n with
    | zero => rfl
    | succ m =>
      show (l.set m a).get? m = some a
      exact ih m (Nat.lt_of_succ_lt_succ h)

theorem set_last_append (x y : PyVal) :
    ∀ l : List PyVal, (l ++ [x]).set l.length y = l ++ [y] := by
  intro l
  induction l with
  | nil => rfl
  | cons a l ih =>
    show a :: ((l ++ [x]).set l.length y) = a :: (l ++ [y])
    rw [ih]

theorem markProcessed_pad (pIdx : Nat) (values : List PyVal)
    (h : values.length ≤ pIdx) :
    markProcessed pIdx values
      = values ++ List.replicate (pIdx - values.length) (PyVal.str "")
          ++ [PyVal.str "Yes"] := by
  unfold markProcessed
  rw [if_neg (by omega)]
  have hrep : List.replicate (pIdx - values.length + 1) (PyVal.str "")
      = List.replicate (pIdx - values.length) (PyVal.str "") ++ [PyVal.str ""] :=
    List.replicate_succ' (pIdx - values.length) (PyVal.str "")
  rw [hrep, ← List.append_assoc]
  have hlast := set_last_append (PyVal.str "") (PyVal.str "Yes")
    (values ++ List.replicate (pIdx - values.length) (PyVal.str ""))
  have hlen : (values ++ List.replicate (pIdx - values.length) (PyVal.str "")).length
      = pIdx := by
    rw [List.length_append, List.length_replicate]
    omega
  rw [hlen] at hlast
  rw [hlast]

theorem markProcessed_length (pIdx : Nat) (values : List PyVal) :
    (markProcessed pIdx values).length = max values.length (pIdx + 1) := by
  unfold markProcessed
  by_cases h : pIdx < values.length
  · rw [if_pos h, List.length_set]
    omega
  · rw [if_neg h, List.length_set, List.length_append, List.length_replicate]
    omega

theorem markProcessed_get (pIdx : Nat) (values : List PyVal) :
    (markProcessed pIdx values).get? pIdx = some (PyVal.str "Yes") := by
  unfold markProcessed
  by_cases h : pIdx < values.length
  · rw [if_pos h]
    exact getElem?_set_self (PyVal.str "Yes") values pIdx h
  · rw [if_neg h]
    apply getElem?_set_self
    rw [List.length_append, List.length_replicate]
    omega

/-- Claim C8: marking a delivered row.  The sentinel `"Yes"` lands exactly
at the processed-column index — by in-place `set` when the index is within
the row, and by padding with empty strings first when it is beyond the
row's length — the single row (with exactly these values) is what is
written back, and the counter is incremented exactly when that write-back
succeeds (on write-back failure only the delivery effect remains). -/
theorem mark_processed_spec (env : PollEnv) (pIdx : Nat) (cols : List String)
    (st : RunState) (row : PollRow)
    (hg : (decide (row.index < 0) || row.values.isEmpty) = false)
    (hp : isAlreadyProcessed pIdx row.values = false)
    (hd : env.deliver row.index (pollNorm cols row.values) = true) :
    (markProcessed pIdx row.values).get? pIdx = some (PyVal.str "Yes")
    ∧ (markProcessed pIdx row.values).length = max row.values.length (pIdx + 1)
    ∧ (pIdx < row.values.length →
        markProcessed pIdx row.values = row.values.set pIdx (PyVal.str "Yes"))
    ∧ (row.values.length ≤ pIdx →
        markProcessed pIdx row.values
          = row.values ++ List.replicate (pIdx - row.values.length) (PyVal.str "")
              ++ [PyVal.str "Yes"])
    ∧ (env.writeRow row.index (markProcessed pIdx row.values) = true →
        processRow env pIdx cols st row
          = ({ delivered := st.delivered ++ [row.index],
               written := st.written ++ [(row.index, markProcessed pIdx row.values)],
               processedCount := st.processedCount + 1 }, Option.none))
    ∧ (env.writeRow row.index (markProcessed pIdx row.values) = false →
        processRow env pIdx cols st row
          = ({ st with delivered := st.delivered ++ [row.index] },
             some (RunError.writeFail row.index))) := by
  refine ⟨markProcessed_get pIdx row.values, markProcessed_length pIdx row.values,
    ?_, markProcessed_pad pIdx row.values, ?_, ?_⟩
  · intro hlt
    unfold markProcessed
    rw [if_pos hlt]
  · intro hw
    exact processRow_write_ok env pIdx cols st row hg hp hd hw
  · intro hw
    exact processRow_write_fail env pIdx cols st row hg hp hd hw

theorem mark_processed_spec_witness :
    (markProcessed 1 [PyVal.str "x"]).get? 1 = some (PyVal.str "Yes")
    ∧ processRow envAll 1 ["A", "Processed"] initRunState ⟨0, [PyVal.str "x"]⟩
        = ({ delivered := [0], written := [(0, markProcessed 1 [PyVal.str "x"])],
             processedCount := 1 }, Option.none) :=
  have h := mark_processed_spec envAll 1 ["A", "Processed"] initRunState
    ⟨0, [PyVal.str "x"]⟩ (by decide) (by decide) (by decide)
  ⟨h.1, h.2.2.2.2.1 (by decide)⟩

/-- An environment where delivery fails exactly for row index 0. -/
def envFail0 : PollEnv := ⟨fun i _ => !(i == 0), fun _ _ => true⟩

/-- Claim C2 counterexample: a snapshot of N = 2 unprocessed rows where
row 0's delivery raises.  The loop has no per-row try/except, so the
exception escapes the loop: the run ends with the delivery error, row 1 is
never delivered, marked or counted (state is empty), and no count N-1 = 1
is returned. -/
theorem row_isolation_counterexample :
    run_msforms_poll envFail0 ["Name", "Processed"]
        [⟨0, [PyVal.str "A", PyVal.str ""]⟩, ⟨1, [PyVal.str "B", PyVal.str ""]⟩]
      = ⟨⟨[], [], 0⟩, Except.error (RunError.deliverFail 0)⟩ := by decide

/-- Claim C2 (amended): there is no row-level fault isolation.  A
delivery or write-back failure on one row escapes the poll loop and aborts
the run: whatever rows follow the failing one are not processed at all
(the result does not depend on them), and only the rows before the
failure keep their effects. -/
theorem row_failure_aborts_run (env : PollEnv) (pIdx : Nat) (cols : List String)
    (st st1 st2 : RunState) (rows1 rows2 : List PollRow) (r : PollRow) (e : RunError)
    (h1 : runRows env pIdx cols rows1 st = (st1, Option.none))
    (h2 : processRow env pIdx cols st1 r = (st2, some e)) :
    runRows env pIdx cols (rows1 ++ r :: rows2) st = (st2, some e) := by
  induction rows1 generalizing st with
  | nil =>
    have h1b : ((st, Option.none) : RunState × Option RunError) = (st1, Option.none) := h1
    cases h1b
    simp only [List.nil_append, runRows]
    rw [h2]
  | cons r1 rs1 ih =>
    simp only [List.cons_append, runRows] at h1 ⊢
    cases hpr : processRow env pIdx cols st r1 with
    | mk st3 eo =>
      rw [hpr] at h1
      cases eo with
      | none => exact ih st3 h1
      | some e1 => cases h1

theorem row_failure_aborts_run_witness :
    runRows envFail0 1 ["Name", "Processed"]
        ([⟨1, [PyVal.str "B", PyVal.str ""]⟩]
          ++ (⟨0, [PyVal.str "A", PyVal.str ""]⟩ : PollRow)
            :: [⟨2, [PyVal.str "C", PyVal.str ""]⟩]) initRunState
      = (⟨[1], [(1, [PyVal.str "B", PyVal.str "Yes"])], 1⟩,
         some (RunError.deliverFail 0)) :=
  row_failure_aborts_run envFail0 1 ["Name", "Processed"] initRunState
    ⟨[1], [(1, [PyVal.str "B", PyVal.str "Yes"])], 1⟩
    ⟨[1], [(1, [PyVal.str "B", PyVal.str "Yes"])], 1⟩
    [⟨1, [PyVal.str "B", PyVal.str ""]⟩] [⟨2, [PyVal.str "C", PyVal.str ""]⟩]
    ⟨0, [PyVal.str "A", PyVal.str ""]⟩ (RunError.deliverFail 0)
    (by decide) (by decide)

/-! Helpers for the processed counter -/

theorem processRow_count_inv (env : PollEnv) (pIdx : Nat) (cols : List String)
    (st : RunState) (row : PollRow)
    (h : st.processedCount = st.written.length) :
    (processRow env pIdx cols st row).1.processedCount
      = (processRow env pIdx cols st row).1.written.length := by
  by_cases hg : (decide (row.index < 0) || row.values.isEmpty) = true
  · rw [processRow_skip_guard env pIdx cols st row hg]
    exact h
  · have hg2 : (decide (row.index < 0) || row.values.isEmpty) = false := by
      simpa using hg
    by_cases hp : isAlreadyProcessed pIdx row.values = true
    · rw [processRow_skip_processed env pIdx cols st row hg2 hp]
      exact h
    · have hp2 : isAlreadyProcessed pIdx row.values = false := by
        simpa using hp
      by_cases hd : env.deliver row.index (pollNorm cols row.values) = true
      · by_cases hw : env.writeRow row.index (markProcessed pIdx row.values) = true
        · rw [processRow_write_ok env pIdx cols st row hg2 hp2 hd hw]
          show st.processedCount + 1
            = (st.written ++ [(row.index, markProcessed pIdx row.values)]).length
          rw [List.length_append, h]
          rfl
        · have hw2 : env.writeRow row.index (markProcessed pIdx row.values) = false := by
            simpa using hw
          rw [processRow_write_fail env pIdx cols st row hg2 hp2 hd hw2]
          exact h
      · have hd2 : env.deliver row.index (pollNorm cols row.values) = false := by
          simpa using hd
        rw [processRow_deliver_fail env pIdx cols st row hg2 hp2 hd2]
        exact h

theorem runRows_count_inv (env : PollEnv) (pIdx : Nat) (cols : List String) :
    ∀ (rows : List PollRow) (st : RunState),
      st.processedCount = st.written.length →
        (runRows env pIdx cols rows st).1.processedCount
          = (runRows env pIdx cols rows st).1.written.length := by
  intro rows
  induction rows with
  | nil => intro st h; exact h
  | cons r rs ih =>
    intro st h
    simp only [runRows]
    have hinv := processRow_count_inv env pIdx cols st r h
    cases hpr : processRow env pIdx cols st r with
    | mk st1 eo =>
      rw [hpr] at hinv
      cases eo with
      | none => exact ih st1 hinv
      | some e => exact hinv

/-- Claim C1 counterexample: a run in which one row is successfully
delivered and marked processed (the internal counter and the write-back
list both say 1) still returns the integer 0 — the function ends with
`return 0`, not `return processed_count`. -/
theorem poll_return_counterexample :
    (run_msforms_poll envAll ["Name", "Processed"]
        [⟨0, [PyVal.str "Bob", PyVal.str ""]⟩]).state.written.length = 1
    ∧ (run_msforms_poll envAll ["Name", "Processed"]
        [⟨0, [PyVal.str "Bob", PyVal.str ""]⟩]).state.processedCount = 1
    ∧ ¬ ((run_msforms_poll envAll ["Name", "Processed"]
        [⟨0, [PyVal.str "Bob", PyVal.str ""]⟩]).result
      = Except.ok ((run_msforms_poll envAll ["Name", "Processed"]
        [⟨0, [PyVal.str "Bob", PyVal.str ""]⟩]).state.processedCount : Int)) := by
  decide

/-- Claim C1 (amended): every run that completes without an exception
returns the integer 0 (the success exit code), regardless of how many rows
were marked; the number of rows successfully marked processed is tracked
only in the internal counter, which always equals the number of successful
write-backs. -/
theorem poll_returns_zero_count_internal (env : PollEnv) (cols : List String)
    (rows : List PollRow) :
    (∀ n : Int, (run_msforms_poll env cols rows).result = Except.ok n → n = 0)
    ∧ (run_msforms_poll env cols rows).state.processedCount
        = (run_msforms_poll env cols rows).state.written.length := by
  constructor
  · intro n hn
    unfold run_msforms_poll at hn
    cases hf : findProcessedIdx cols with
    | none => rw [hf] at hn; cases hn
    | some pIdx =>
      rw [hf] at hn
      have hn2 : (match runRows env pIdx cols rows initRunState with
          | (st, Option.none) => ({ state := st, result := Except.ok 0 } : RunOutcome)
          | (st, some e) => { state := st, result := Except.error e }).result
            = Except.ok n := hn
      cases hr : runRows env pIdx cols rows initRunState with
      | mk st eo =>
        rw [hr] at hn2
        cases eo with
        | none => cases hn2; rfl
        | some e => cases hn2
  · unfold run_msforms_poll
    cases hf : findProcessedIdx cols with
    | none => rfl
    | some pIdx =>
      have hinv := runRows_count_inv env pIdx cols rows initRunState rfl
      show (match runRows env pIdx cols rows initRunState with
          | (st, Option.none) => ({ state := st, result := Except.ok 0 } : RunOutcome)
          | (st, some e) => { state := st, result := Except.error e }).state.processedCount
        = (match runRows env pIdx cols rows initRunState with
          | (st, Option.none) => ({ state := st, result := Except.ok 0 } : RunOutcome)
          | (st, some e) => { state := st, result := Except.error e }).state.written.length
      cases hr : runRows env pIdx cols rows initRunState with
      | mk st eo =>
        rw [hr] at hinv
        cases eo with
        | none => exact hinv
        | some e => exact hinv

theorem poll_returns_zero_count_internal_witness :
    (0 : Int) = 0
    ∧ (run_msforms_poll envAll ["Name", "Processed"]
        [⟨0, [PyVal.str "Bob", PyVal.str ""]⟩]).state.processedCount
      = (run_msforms_poll envAll ["Name", "Processed"]
        [⟨0, [PyVal.str "Bob", PyVal.str ""]⟩]).state.written.length :=
  ⟨(poll_returns_zero_count_internal envAll ["Name", "Processed"]
      [⟨0, [PyVal.str "Bob", PyVal.str ""]⟩]).1 0 (by decide),
   (poll_returns_zero_count_internal envAll ["Name", "Processed"]
      [⟨0, [PyVal.str "Bob", PyVal.str ""]⟩]).2⟩

/-! ### Backup Extractor header validation (sheets.ensure_header) -/

/-- The observable effect of `ensure_header` on success: either the
canonical header was written into the blank sheet (`ws.update("A1",
[SHEET_COLUMNS])`), or the existing header was validated / tolerated. -/
inductive HeaderResult where
  | wroteHeader
  | validated
deriving DecidableEq, Repr

/-- `sheets.ensure_header`: a header that is absent or entirely blank
(after `str(x).strip()`) is initialized with the canonical header; else
the stripped leading cells are compared position-by-position against
`SHEET_COLUMNS` and, under strict validation, a mismatch raises. -/
def ensure_header (header : List PyVal) (strict : Bool) : Except String HeaderResult :=
  if header.isEmpty || header.all (fun x => strStrip x.pyStr == "") then
    Except.ok HeaderResult.wroteHeader
  else if !((header.take SHEET_COLUMNS.length).map (fun x => strStrip x.pyStr)
      == SHEET_COLUMNS) && strict then
    Except.error "Worksheet header does not match expected QAF schema."
  else Except.ok HeaderResult.validated

/-- `sheets.read_all_complaints`: validate the header, then fetch the
records (`ws.get_all_records`, an external collaborator). -/
def read_all_complaints (header : List PyVal) (records : List (List (String × PyVal)))
    (strict_header : Bool) : Except String (List (List (String × PyVal))) :=
  match ensure_header header strict_header with
  | Except.error e => Except.error e
  | Except.ok _ => Except.ok records

/-- Claim C9: an absent or entirely blank header is treated as freshly
initialized and the canonical header is written; a present header whose
stripped leading cells differ from the canonical order in any position is
a fatal error under strict validation; with strict validation off the same
header is tolerated silently and extraction proceeds, returning the
rows. -/
theorem header_validation (header : List PyVal) (records : List (List (String × PyVal)))
    (strict : Bool) :
    ((header.isEmpty || header.all (fun x => strStrip x.pyStr == "")) = true →
      ensure_header header strict = Except.ok HeaderResult.wroteHeader)
    ∧ ((header.isEmpty || header.all (fun x => strStrip x.pyStr == "")) = false →
      ((header.take SHEET_COLUMNS.length).map (fun x => strStrip x.pyStr)
          ≠ SHEET_COLUMNS →
        ensure_header header true
          = Except.error "Worksheet header does not match expected QAF schema.")
      ∧ read_all_complaints header records false = Except.ok records) := by
  constructor
  · intro hb
    unfold ensure_header
    rw [if_pos hb]
  · intro hb
    constructor
    · intro hmis
      unfold ensure_header
      rw [if_neg (by simp [hb])]
      have hne : ((header.take SHEET_COLUMNS.length).map (fun x => strStrip x.pyStr)
          == SHEET_COLUMNS) = false := by
        rw [beq_eq_false_iff_ne]
        exact hmis
      rw [if_pos (by rw [hne]; rfl)]
    · unfold read_all_complaints ensure_header
      rw [if_neg (by simp [hb]), if_neg (by simp)]

theorem header_validation_witness :
    (ensure_header [PyVal.str "date", PyVal.str "wrong"] true
      = Except.error "Worksheet header does not match expected QAF schema.")
    ∧ read_all_complaints [PyVal.str "date", PyVal.str "wrong"] [] false
      = Except.ok [] :=
  have h := (header_validation [PyVal.str "date", PyVal.str "wrong"] [] true).2 (by decide)
  ⟨h.1 (by decide), h.2⟩
